import Mathlib

/-!
Shallow embedding of `main.py` (a project documentation / code-report
generator) and proofs about it.

The program scans a directory tree for `.py` files, parses each file into an
AST, extracts one record per function definition found anywhere in the tree
(`ast.walk` is a breadth-first traversal), groups the records by a module name
derived from the file's base name, and renders the result as a text or docx
report.

Modelling conventions:
* A file's text is represented by its parse outcome (`FileOutcome`): the
  Python parser is external, so a file either fails at `open()` (raised
  outside the `try` block of `process_file`), fails at `f.read()` or
  `ast.parse` (raised inside the `try` block and caught), or yields a parsed
  tree.
* AST nodes are either function definitions (with the fields `analyze_function`
  reads, plus their body) or any other node with its children
  (`Node.other` covers class definitions, statements, expressions, ...).
  Annotation expressions are carried as their `ast.unparse` rendering.
* Python dicts are insertion-ordered association lists; printing is modelled
  as an explicit list of emitted lines; raised exceptions are `Except.error`.
* `ast.walk` is breadth-first over a queue; we run it with fuel equal to the
  total node count, which is exactly the number of iterations the queue-based
  traversal performs.
-/

namespace CodeReport

/-- A positional parameter node (`ast.arg`): its name and, when present, its
annotation rendered by `ast.unparse`. -/
structure PyArg where
  arg : String
  ann : Option String
deriving DecidableEq, Repr

/-- One entry of the `args` list built by `analyze_function`: the `type` key
is present exactly when the parameter is annotated. -/
structure ArgInfo where
  name : String
  type : Option String
deriving DecidableEq, Repr

/-- The dictionary built by `analyze_function` for one function definition. -/
structure FuncDetails where
  name : String
  args : List ArgInfo
  returns : Option String
  docstring : String
deriving DecidableEq, Repr

/-- The dictionary returned by `process_file`: a single key `modules` holding
an insertion-ordered mapping from module name to function records. -/
structure FileResult where
  modules : List (String × List FuncDetails)
deriving DecidableEq, Repr

/-- A Python AST node, as far as `process_file` can observe it: either a
`FunctionDef` (name, positional args, return annotation as rendered by
`ast.unparse`, `ast.get_docstring` result, body) or any other node with its
child nodes. -/
inductive Node where
  | funcDef (name : String) (args : List PyArg) (returns : Option String)
      (docstr : Option String) (body : List Node)
  | other (children : List Node)

/-- The child nodes visited by `ast.walk` below a node.  For a `FunctionDef`
only the body can contain further `FunctionDef` nodes (annotations and
defaults are expressions, which cannot contain statement nodes). -/
def childrenOf : Node → List Node
  | .funcDef _ _ _ _ body => body
  | .other cs => cs

/-- Total number of nodes in a forest (each node and all its descendants). -/
def nodeCount : List Node → Nat
  | [] => 0
  | .funcDef _ _ _ _ body :: rest => 1 + nodeCount body + nodeCount rest
  | .other cs :: rest => 1 + nodeCount cs + nodeCount rest

/-- Queue-based breadth-first traversal (`ast.walk`), with explicit fuel.
Each iteration pops one node and enqueues its children, so running with fuel
`nodeCount q` always drains the queue. -/
def bfsFuel : Nat → List Node → List Node
  | _, [] => []
  | 0, q => q
  | fuel + 1, n :: rest => n :: bfsFuel fuel (rest ++ childrenOf n)

/-- `ast.walk` over a parsed module body (the `Module` root node yielded first
by `ast.walk` is never a `FunctionDef`, so it is omitted). -/
def walk (body : List Node) : List Node :=
  bfsFuel (nodeCount body) body

/-- All nodes of a forest in depth-first order; used as the reference
enumeration of "every node of the syntax tree". -/
def allNodes : List Node → List Node
  | [] => []
  | .funcDef nm args ret doc body :: rest =>
      .funcDef nm args ret doc body :: (allNodes body ++ allNodes rest)
  | .other cs :: rest => .other cs :: (allNodes cs ++ allNodes rest)

/-- `analyze_function` from `main.py`, applied to the fields of a
`FunctionDef` node: name, the positional argument list (with `type` attached
exactly when an annotation is present), return annotation, and
`ast.get_docstring(node) or ''`. -/
def analyze_function (name : String) (args : List PyArg) (returns : Option String)
    (docstr : Option String) : FuncDetails :=
  { name := name
    args := args.map (fun a => { name := a.arg, type := a.ann })
    returns := returns
    docstring := docstr.getD "" }

/-- The record `process_file` produces for a node: `some` exactly on
`FunctionDef` nodes (the `isinstance(node, ast.FunctionDef)` check). -/
def nodeRecord : Node → Option FuncDetails
  | .funcDef nm args ret doc _ => some (analyze_function nm args ret doc)
  | .other _ => none

/- -------------------- string / path helpers -------------------- -/

/-- Helper for `os.path.basename`: fold over the characters, restarting the
accumulated segment after every slash. -/
def basenameChars (acc : List Char) : List Char → List Char
  | [] => acc
  | c :: rest => if c = '/' then basenameChars [] rest else basenameChars (acc ++ [c]) rest

/-- `os.path.basename` (POSIX): everything after the last slash. -/
def basename (p : String) : String :=
  String.mk (basenameChars [] p.data)

/-- If `pat` is a leading segment of `l`, return the remainder. -/
def dropPat : List Char → List Char → Option (List Char)
  | [], l => some l
  | _ :: _, [] => none
  | p :: ps, c :: cs => if p = c then dropPat ps cs else none

/-- Python `str.replace`: scan left to right, replacing non-overlapping
occurrences of `pat` by `rep`.  Fuel-based so that it is structurally
recursive; the fuel is the length of the string, which always suffices for a
nonempty pattern (the only pattern used by the source is `".py"`). -/
def replFuel (pat rep : List Char) : Nat → List Char → List Char
  | _, [] => []
  | 0, l => l
  | fuel + 1, c :: rest =>
      match dropPat pat (c :: rest) with
      | some remainder => rep ++ replFuel pat rep fuel remainder
      | none => c :: replFuel pat rep fuel rest

/-- Python `s.replace(pat, rep)` for a nonempty pattern. -/
def strReplace (s pat rep : String) : String :=
  String.mk (replFuel pat.data rep.data s.data.length s.data)

/-- `os.path.basename(file_path).replace('.py', '')` from `process_file`:
note that `str.replace` removes every occurrence of `".py"`, not only a
trailing suffix. -/
def module_name (file_path : String) : String :=
  strReplace (basename file_path) ".py" ""

/-- Python `s.endswith(suf)`. -/
def pyEndsWith (s suf : String) : Bool :=
  (dropPat suf.data.reverse s.data.reverse).isSome

/-- `os.path.join` for the shapes produced by `os.walk` (the second component
is a bare file name, never absolute). -/
def joinPath (d f : String) : String :=
  if d = "" then f
  else if pyEndsWith d "/" then d ++ f
  else d ++ "/" ++ f

/-- The diagnostic printed by `process_file` when the `try` block raises. -/
def errPrint (file_path msg : String) : String :=
  "Error parsing " ++ file_path ++ ": " ++ msg

/- -------------------- process_file -------------------- -/

/-- `result['modules'].setdefault(module_name, []).append(details)` on an
insertion-ordered dict. -/
def addToModule : List (String × List FuncDetails) → String → FuncDetails →
    List (String × List FuncDetails)
  | [], k, fd => [(k, [fd])]
  | (k', vs) :: rest, k, fd =>
      if k' = k then (k', vs ++ [fd]) :: rest
      else (k', vs) :: addToModule rest k fd

/-- The `for node in ast.walk(tree)` loop body of `process_file`: append a
record for every `FunctionDef` node under the module name derived from the
file path. -/
def collectModules (file_path : String) : List Node →
    List (String × List FuncDetails) → List (String × List FuncDetails)
  | [], acc => acc
  | .funcDef nm args ret doc _ :: rest, acc =>
      collectModules file_path rest
        (addToModule acc (module_name file_path) (analyze_function nm args ret doc))
  | .other _ :: rest, acc => collectModules file_path rest acc

/-- How one file's text behaves when `process_file` touches it.  `openError`
is raised by `open(...)` itself, which sits outside the `try` block;
`readError` (`f.read()`) and `parseError` (`ast.parse`) are raised inside the
`try` block and are caught; `tree` is a successful parse. -/
inductive FileOutcome where
  | openError (msg : String)
  | readError (msg : String)
  | parseError (msg : String)
  | tree (body : List Node)

/-- `process_file` from `main.py`.  Returns the result dictionary together
with the lines it printed; an uncaught exception is `Except.error`. -/
def process_file (file_path : String) (outcome : FileOutcome) :
    Except String (FileResult × List String) :=
  match outcome with
  | .openError msg => .error msg
  | .readError msg => .ok (⟨[]⟩, [errPrint file_path msg])
  | .parseError msg => .ok (⟨[]⟩, [errPrint file_path msg])
  | .tree body => .ok (⟨collectModules file_path (walk body) []⟩, [])

/-- The records a successfully parsed file yields, in traversal order. -/
def fileFuncs (body : List Node) : List FuncDetails :=
  (walk body).filterMap nodeRecord

/- -------------------- scan_project -------------------- -/

/-- The filter in `scan_project`'s inner loop:
`filename.endswith('.py') and filename != os.path.basename(__file__)`. -/
def eligibleFile (filename scriptBase : String) : Bool :=
  pyEndsWith filename ".py" && filename != scriptBase

/-- Python dict assignment `d[k] = v` on an insertion-ordered dict. -/
def dictSet (m : List (String × FileResult)) (k : String) (v : FileResult) :
    List (String × FileResult) :=
  match m with
  | [] => [(k, v)]
  | (k', v') :: rest => if k' = k then (k, v) :: rest else (k', v') :: dictSet rest k v

/-- The inner `for filename in filenames` loop of `scan_project`.  The
accumulator carries `project_data` and the lines printed so far. -/
def scanFiles (sb : String) (outcome : String → FileOutcome) (dirpath : String) :
    List String → List (String × FileResult) × List String →
    Except String (List (String × FileResult) × List String)
  | [], acc => .ok acc
  | filename :: rest, acc =>
      if eligibleFile filename sb then
        match process_file (joinPath dirpath filename) (outcome (joinPath dirpath filename)) with
        | .error e => .error e
        | .ok (data, prints) =>
            scanFiles sb outcome dirpath rest
              (if data.modules.isEmpty then acc.1
               else dictSet acc.1 (joinPath dirpath filename) data,
               acc.2 ++ prints)
      else scanFiles sb outcome dirpath rest acc

/-- The outer `for dirpath, _, filenames in os.walk(root_dir)` loop. -/
def scanDirs (sb : String) (outcome : String → FileOutcome) :
    List (String × List String) → List (String × FileResult) × List String →
    Except String (List (String × FileResult) × List String)
  | [], acc => .ok acc
  | (dirpath, filenames) :: rest, acc =>
      match scanFiles sb outcome dirpath filenames acc with
      | .error e => .error e
      | .ok acc' => scanDirs sb outcome rest acc'

/-- `scan_project` from `main.py`.  `walkRes` is the sequence of
`(dirpath, filenames)` pairs produced by `os.walk(root_dir)`; `scriptBase` is
`os.path.basename(__file__)` (`"main.py"` in this repository); `outcome`
describes the content of each file path. -/
def scan_project (walkRes : List (String × List String)) (scriptBase : String)
    (outcome : String → FileOutcome) :
    Except String (List (String × FileResult) × List String) :=
  scanDirs scriptBase outcome walkRes ([], [])

/-- The file paths `scan_project` submits to `process_file` from one
directory entry, in loop order. -/
def eligibleIn (sb dirpath : String) : List String → List String
  | [] => []
  | fn :: rest =>
      if eligibleFile fn sb then joinPath dirpath fn :: eligibleIn sb dirpath rest
      else eligibleIn sb dirpath rest

/-- All file paths `scan_project` submits to `process_file`, in loop order. -/
def eligiblePaths : List (String × List String) → String → List String
  | [], _ => []
  | (d, fns) :: rest, sb => eligibleIn sb d fns ++ eligiblePaths rest sb

/-- Whether `process_file` would extract at least one function record. -/
def fileHasFuncs (outcome : String → FileOutcome) (p : String) : Bool :=
  match outcome p with
  | .tree body => !(fileFuncs body).isEmpty
  | _ => false

/-- The `project_data` entry a path contributes, if any. -/
def fileEntry (outcome : String → FileOutcome) (p : String) :
    Option (String × FileResult) :=
  match outcome p with
  | .tree body =>
      if (fileFuncs body).isEmpty then none
      else some (p, ⟨[(module_name p, fileFuncs body)]⟩)
  | _ => none

/-- The diagnostic line a path contributes, if any. -/
def fileDiag (outcome : String → FileOutcome) (p : String) : Option String :=
  match outcome p with
  | .readError msg => some (errPrint p msg)
  | .parseError msg => some (errPrint p msg)
  | _ => none

/-- Whether an outcome is an exception raised by `open()` itself (the only
kind `process_file` does not catch). -/
def isOpenError : FileOutcome → Bool
  | .openError _ => true
  | _ => false

/- -------------------- generate_report -------------------- -/

/-- A single-quote character, as used by Python `repr` on a string. -/
def squote : String := String.mk [Char.ofNat 39]

/-- Python `str` of a list of strings, as produced by
`f"... {[arg['name'] for arg in func['args']]}"` (the names are identifiers,
so `repr` quotes them with single quotes). -/
def pyListRepr (xs : List String) : String :=
  "[" ++ String.intercalate ", " (xs.map (fun s => squote ++ s ++ squote)) ++ "]"

/-- Python `func['returns'] or 'None'`: `None` and the empty string are both
falsy. -/
def pyOrNone : Option String → String
  | none => "None"
  | some s => if s = "" then "None" else s

/-- `'-'*40`. -/
def dashRow : String := String.mk (List.replicate 40 '-')

/-- `'='*40`. -/
def equalsRow : String := String.mk (List.replicate 40 '=')

/-- One element added to a docx `Document`. -/
inductive DocItem where
  | heading (text : String) (level : Nat)
  | para (text : String)
deriving DecidableEq, Repr

/-- The one artifact `generate_report` writes to disk. -/
inductive Artifact where
  | txt (content : String)
  | docx (items : List DocItem)
deriving DecidableEq, Repr

/-- The local variables of `generate_report`'s loop: exactly one of `doc` and
`lines` is bound, depending on which branch of the initial
`if output_format == 'docx' and Document:` ran. -/
inductive RState where
  | doc (items : List DocItem)
  | lines (ls : List String)
deriving DecidableEq, Repr

/-- One `if output_format == 'docx': doc.add_... else: lines.append(...)`
step of `generate_report`.  If the branch taken refers to a variable the
initial branch did not bind, Python raises a `NameError`. -/
def addRS (output_format : String) (docItems : List DocItem) (txtLines : List String)
    (st : RState) : Except String RState :=
  if output_format == "docx" then
    match st with
    | .doc items => .ok (.doc (items ++ docItems))
    | .lines _ => .error "NameError: name doc is not defined"
  else
    match st with
    | .lines ls => .ok (.lines (ls ++ txtLines))
    | .doc _ => .error "NameError: name lines is not defined"

/-- The docx items emitted for one function. -/
def funcDocItems (func : FuncDetails) : List DocItem :=
  [.heading func.name 3,
   .para ("Arguments: " ++ pyListRepr (func.args.map ArgInfo.name)),
   .para ("Returns: " ++ pyOrNone func.returns),
   .para ("Description: " ++ func.docstring)]

/-- The text lines emitted for one function. -/
def funcTxtLines (func : FuncDetails) : List String :=
  ["\nFunction: " ++ func.name,
   "Inputs: " ++ pyListRepr (func.args.map ArgInfo.name),
   "Returns: " ++ pyOrNone func.returns,
   "Description: " ++ func.docstring,
   dashRow]

/-- The `for func in functions` loop of `generate_report`. -/
def renderFuncs (output_format : String) : List FuncDetails → RState → Except String RState
  | [], st => .ok st
  | func :: rest, st =>
      match addRS output_format (funcDocItems func) (funcTxtLines func) st with
      | .error e => .error e
      | .ok st' => renderFuncs output_format rest st'

/-- The `for module, functions in modules['modules'].items()` loop. -/
def renderModules (output_format : String) :
    List (String × List FuncDetails) → RState → Except String RState
  | [], st => .ok st
  | (module, functions) :: rest, st =>
      match addRS output_format [.heading ("Module: " ++ module) 2]
          ["\nModule: " ++ module ++ "\n" ++ equalsRow] st with
      | .error e => .error e
      | .ok st1 =>
          match renderFuncs output_format functions st1 with
          | .error e => .error e
          | .ok st2 => renderModules output_format rest st2

/-- The `for file_path, modules in data.items()` loop. -/
def renderFiles (output_format : String) :
    List (String × FileResult) → RState → Except String RState
  | [], st => .ok st
  | (file_path, fr) :: rest, st =>
      match addRS output_format [.heading ("File: " ++ file_path) 1]
          ["\nFile: " ++ file_path ++ "\n" ++ dashRow] st with
      | .error e => .error e
      | .ok st1 =>
          match renderModules output_format fr.modules st1 with
          | .error e => .error e
          | .ok st2 => renderFiles output_format rest st2

/-- `generate_report` from `main.py`.  `docAvailable` tells whether the
optional `docx` library was importable (`Document` is not `None`).  Returns
the artifact written and the confirmation lines printed; an uncaught Python
exception is `Except.error`. -/
def generate_report (data : List (String × FileResult)) (docAvailable : Bool)
    (output_format : String) : Except String (Artifact × List String) :=
  let st0 : RState :=
    if output_format == "docx" && docAvailable then
      .doc [.heading "Project Documentation" 0]
    else .lines []
  match renderFiles output_format data st0 with
  | .error e => .error e
  | .ok st =>
      if output_format == "docx" && docAvailable then
        match st with
        | .doc items =>
            .ok (.docx items, ["Word document generated: project_documentation.docx"])
        | .lines _ => .error "NameError: name doc is not defined"
      else
        match st with
        | .lines ls =>
            .ok (.txt (String.intercalate "\n" ls),
                 ["Text document generated: project_documentation.txt"])
        | .doc _ => .error "NameError: name lines is not defined"

/-- The `if __name__ == "__main__":` entry point: scan the program's own
directory, then generate a docx report when the library is available,
otherwise a text report followed by the advisory line. -/
def mainProgram (walkRes : List (String × List String)) (outcome : String → FileOutcome)
    (docAvailable : Bool) : Except String (Artifact × List String) :=
  match scan_project walkRes "main.py" outcome with
  | .error e => .error e
  | .ok (pd, prints) =>
      if docAvailable then
        match generate_report pd docAvailable "docx" with
        | .error e => .error e
        | .ok (a, pr) => .ok (a, prints ++ pr)
      else
        match generate_report pd docAvailable "txt" with
        | .error e => .error e
        | .ok (a, pr) =>
            .ok (a, prints ++ pr ++ ["Install python-docx for Word document support"])

/- -------------------- spec-side definitions -------------------- -/

/-- Modelled from the spec: the text lines for one function, per §4.4 of the
spec (a `Function:` line, an `Inputs:` line listing parameter names, a
`Returns:` line with literal `None` when absent, a `Description:` line, and a
closing row of 40 dashes). -/
def specFuncLines (f : FuncDetails) : List String :=
  ["\nFunction: " ++ f.name,
   "Inputs: " ++ pyListRepr (f.args.map ArgInfo.name),
   "Returns: " ++ pyOrNone f.returns,
   "Description: " ++ f.docstring,
   dashRow]

/-- Modelled from the spec: the text lines for one module, in insertion
order: a module header underlined with 40 equals signs, then each function's
block in recorded order. -/
def specModuleLines (mf : String × List FuncDetails) : List String :=
  ("\nModule: " ++ mf.1 ++ "\n" ++ equalsRow) :: (mf.2.map specFuncLines).flatten

/-- Modelled from the spec: the text lines for one file, in insertion order:
a file header underlined with 40 dashes, then each module's block. -/
def specFileLines (pf : String × FileResult) : List String :=
  ("\nFile: " ++ pf.1 ++ "\n" ++ dashRow) :: (pf.2.modules.map specModuleLines).flatten

/-- Modelled from the spec: the whole text report, iterating
File → Module → Function in insertion order. -/
def specTextLines (data : List (String × FileResult)) : List String :=
  (data.map specFileLines).flatten

/-- Whether `pat` occurs as a contiguous segment somewhere in `l`. -/
def hasSegment (pat : List Char) : List Char → Bool
  | [] => pat.isEmpty
  | c :: rest => (dropPat pat (c :: rest)).isSome || hasSegment pat rest

/- -------------------- lemmas: strings and paths -------------------- -/

lemma dropPat_eq_some (pat : List Char) :
    ∀ l r, dropPat pat l = some r ↔ l = pat ++ r := by
  induction pat with
  | nil => intro l r; simp [dropPat]
  | cons p ps ih =>
    intro l r
    cases l with
    | nil => simp [dropPat]
    | cons c cs =>
      by_cases h : p = c
      · subst h; simp [dropPat, ih]
      · simp only [dropPat, if_neg h, List.cons_append]
        constructor
        · intro hco; exact absurd hco (by simp)
        · intro he
          injection he with h1 _
          exact absurd h1.symm h

lemma pyEndsWith_iff (s suf : String) :
    pyEndsWith s suf = true ↔ ∃ init, s.data = init ++ suf.data := by
  unfold pyEndsWith
  rw [Option.isSome_iff_exists]
  constructor
  · rintro ⟨r, hr⟩
    rw [dropPat_eq_some] at hr
    refine ⟨r.reverse, ?_⟩
    have h2 := congrArg List.reverse hr
    simpa using h2
  · rintro ⟨init, hi⟩
    refine ⟨init.reverse, ?_⟩
    rw [dropPat_eq_some, hi]
    simp

lemma basenameChars_append (a : List Char) :
    ∀ (b : List Char) (acc : List Char),
      basenameChars acc (a ++ b) = basenameChars (basenameChars acc a) b := by
  induction a with
  | nil => intro b acc; rfl
  | cons c a' ih =>
    intro b acc
    by_cases h : c = '/' <;> simp [basenameChars, h, ih]

lemma basenameChars_no_slash :
    ∀ (l : List Char) (acc : List Char), '/' ∉ l → basenameChars acc l = acc ++ l := by
  intro l
  induction l with
  | nil => intro acc _; simp [basenameChars]
  | cons c rest ih =>
    intro acc h
    have hc : c ≠ '/' := fun he => h (he ▸ List.mem_cons_self c rest)
    have hr : '/' ∉ rest := fun hm => h (List.mem_cons_of_mem c hm)
    simp [basenameChars, hc, ih _ hr]

lemma basename_no_slash (fn : String) (h : '/' ∉ fn.data) : basename fn = fn := by
  unfold basename
  rw [basenameChars_no_slash _ _ h]
  rfl

lemma basename_joinPath (d fn : String) (h : '/' ∉ fn.data) :
    basename (joinPath d fn) = fn := by
  unfold joinPath
  by_cases hd : d = ""
  · simp only [if_pos hd]
    exact basename_no_slash fn h
  · by_cases hs : pyEndsWith d "/"
    · simp only [if_neg hd, if_pos hs]
      obtain ⟨init, hinit⟩ := (pyEndsWith_iff d "/").mp hs
      unfold basename
      have hdata : (d ++ fn).data = init ++ ('/' :: fn.data) := by
        rw [String.data_append, hinit]
        simp [show ("/" : String).data = ['/'] from rfl]
      rw [hdata, basenameChars_append]
      simp only [basenameChars, if_pos rfl]
      rw [basenameChars_no_slash _ _ h]
      rfl
    · simp only [if_neg hd, if_neg hs]
      unfold basename
      have hdata : (d ++ "/" ++ fn).data = d.data ++ ('/' :: fn.data) := by
        rw [String.data_append, String.data_append]
        simp [show ("/" : String).data = ['/'] from rfl]
      rw [hdata, basenameChars_append]
      simp only [basenameChars, if_pos rfl]
      rw [basenameChars_no_slash _ _ h]
      rfl

lemma replFuel_strip :
    ∀ (stem : List Char) (fuel : Nat), stem.length + 3 ≤ fuel →
      hasSegment ['.', 'p', 'y'] stem = false →
      replFuel ['.', 'p', 'y'] [] fuel (stem ++ ['.', 'p', 'y']) = stem := by
  intro stem
  induction stem with
  | nil =>
    intro fuel hf _
    match fuel, hf with
    | f + 1, _ =>
      show replFuel ['.', 'p', 'y'] [] (f + 1) ('.' :: 'p' :: 'y' :: []) = []
      simp [replFuel, dropPat]
  | cons c stem' ih =>
    intro fuel hf hocc
    match fuel, hf with
    | f + 1, hf =>
      have hdrop : dropPat ['.', 'p', 'y'] (c :: (stem' ++ ['.', 'p', 'y'])) = none := by
        cases hd : dropPat ['.', 'p', 'y'] (c :: (stem' ++ ['.', 'p', 'y'])) with
        | none => rfl
        | some r =>
          exfalso
          rw [dropPat_eq_some] at hd
          cases stem' with
          | nil => simp at hd
          | cons d stem'' =>
            cases stem'' with
            | nil => simp at hd
            | cons e stem''' =>
              simp only [List.cons_append, List.cons.injEq, List.append_assoc] at hd
              obtain ⟨hc, hdp, hey, _⟩ := hd
              have hseg : hasSegment ['.', 'p', 'y'] (c :: d :: e :: stem''') = true := by
                subst hc; subst hdp; subst hey
                simp [hasSegment, dropPat]
              rw [hocc] at hseg
              exact Bool.false_ne_true hseg
      have hrest : hasSegment ['.', 'p', 'y'] stem' = false := by
        have h2 := hocc
        simp only [hasSegment, Bool.or_eq_false_iff] at h2
        exact h2.2
      calc replFuel ['.', 'p', 'y'] [] (f + 1) ((c :: stem') ++ ['.', 'p', 'y'])
          = c :: replFuel ['.', 'p', 'y'] [] f (stem' ++ ['.', 'p', 'y']) := by
            simp [replFuel, hdrop]
        _ = c :: stem' := by
            rw [ih f (by simpa using Nat.succ_le_succ_iff.mp hf) hrest]

lemma module_name_strip (d : String) (stem : List Char)
    (hocc : hasSegment ['.', 'p', 'y'] stem = false) (hs : '/' ∉ stem) :
    module_name (joinPath d (String.mk (stem ++ ['.', 'p', 'y']))) = String.mk stem := by
  have hns : '/' ∉ (String.mk (stem ++ ['.', 'p', 'y'])).data := by
    show '/' ∉ stem ++ ['.', 'p', 'y']
    intro hm
    rcases List.mem_append.mp hm with h1 | h1
    · exact hs h1
    · simp at h1
  unfold module_name
  rw [basename_joinPath _ _ hns]
  unfold strReplace
  have hpat : (".py" : String).data = ['.', 'p', 'y'] := rfl
  have hrep : ("" : String).data = [] := rfl
  have hmk : (String.mk (stem ++ ['.', 'p', 'y'])).data = stem ++ ['.', 'p', 'y'] := rfl
  rw [hpat, hrep, hmk]
  rw [replFuel_strip stem _ (by simp) hocc]

/- -------------------- lemmas: tree walk -------------------- -/

lemma nodeCount_cons (n : Node) (rest : List Node) :
    nodeCount (n :: rest) = 1 + nodeCount (childrenOf n) + nodeCount rest := by
  cases n <;> simp [nodeCount, childrenOf]

lemma nodeCount_append (a b : List Node) :
    nodeCount (a ++ b) = nodeCount a + nodeCount b := by
  induction a with
  | nil => simp [nodeCount]
  | cons n rest ih =>
    rw [List.cons_append, nodeCount_cons, nodeCount_cons, ih]
    omega

lemma nodeCount_eq_zero {q : List Node} (h : nodeCount q = 0) : q = [] := by
  cases q with
  | nil => rfl
  | cons n rest => rw [nodeCount_cons] at h; omega

lemma allNodes_cons (n : Node) (rest : List Node) :
    allNodes (n :: rest) = n :: (allNodes (childrenOf n) ++ allNodes rest) := by
  cases n <;> simp [allNodes, childrenOf]

lemma allNodes_append (a b : List Node) :
    allNodes (a ++ b) = allNodes a ++ allNodes b := by
  induction a with
  | nil => simp [allNodes]
  | cons n rest ih =>
    rw [List.cons_append, allNodes_cons, allNodes_cons, ih]
    simp

lemma bfsFuel_perm :
    ∀ (fuel : Nat) (q : List Node), nodeCount q ≤ fuel →
      List.Perm (bfsFuel fuel q) (allNodes q) := by
  intro fuel
  induction fuel with
  | zero =>
    intro q hq
    rw [nodeCount_eq_zero (Nat.le_zero.mp hq)]
    simp [bfsFuel, allNodes]
  | succ f ih =>
    intro q hq
    cases q with
    | nil => simp [bfsFuel, allNodes]
    | cons n rest =>
      rw [show bfsFuel (f + 1) (n :: rest) = n :: bfsFuel f (rest ++ childrenOf n) from rfl]
      rw [allNodes_cons]
      refine List.Perm.cons n ?_
      have h1 : nodeCount (rest ++ childrenOf n) ≤ f := by
        rw [nodeCount_append]
        rw [nodeCount_cons] at hq
        omega
      have h2 := ih (rest ++ childrenOf n) h1
      rw [allNodes_append] at h2
      exact h2.trans List.perm_append_comm

lemma walk_perm (body : List Node) : List.Perm (walk body) (allNodes body) :=
  bfsFuel_perm _ _ (Nat.le_refl _)

/- -------------------- lemmas: process_file -------------------- -/

lemma collectModules_eq (fp : String) :
    ∀ (l : List Node) (acc : List (String × List FuncDetails)),
      collectModules fp l acc =
        (l.filterMap nodeRecord).foldl (fun a fd => addToModule a (module_name fp) fd) acc := by
  intro l
  induction l with
  | nil => intro acc; simp [collectModules]
  | cons n rest ih =>
    intro acc
    cases n with
    | funcDef nm args ret doc body =>
      simp [collectModules, nodeRecord, List.filterMap_cons, ih]
    | other cs =>
      simp [collectModules, nodeRecord, List.filterMap_cons, ih]

lemma addToModule_keyed (k : String) (fds : List FuncDetails) :
    ∀ vs, fds.foldl (fun a fd => addToModule a k fd) [(k, vs)] = [(k, vs ++ fds)] := by
  induction fds with
  | nil => intro vs; simp
  | cons f fs ih =>
    intro vs
    have hstep : addToModule [(k, vs)] k f = [(k, vs ++ [f])] := by
      simp [addToModule]
    rw [List.foldl_cons, hstep, ih]
    simp

lemma foldl_addToModule_nil (k : String) (fds : List FuncDetails) :
    fds.foldl (fun a fd => addToModule a k fd) [] =
      if fds = [] then [] else [(k, fds)] := by
  cases fds with
  | nil => simp
  | cons f fs =>
    have hstep : addToModule [] k f = [(k, [f])] := rfl
    rw [List.foldl_cons, hstep, addToModule_keyed]
    simp

lemma process_file_tree (fp : String) (body : List Node) :
    process_file fp (.tree body) =
      .ok (⟨if fileFuncs body = [] then []
            else [(module_name fp, fileFuncs body)]⟩, []) := by
  have h : process_file fp (.tree body) = .ok (⟨collectModules fp (walk body) []⟩, []) := rfl
  rw [h, collectModules_eq, foldl_addToModule_nil]
  rfl

/-- The records of a parsed file are exactly one per `FunctionDef` node of
the whole tree (as a permutation: `ast.walk` is breadth-first while
`allNodes` enumerates depth-first). -/
lemma fileFuncs_perm (body : List Node) :
    List.Perm (fileFuncs body) ((allNodes body).filterMap nodeRecord) :=
  (walk_perm body).filterMap nodeRecord

/- -------------------- lemmas: scan_project -------------------- -/

lemma fileEntry_map_fst (outcome : String → FileOutcome) :
    ∀ l : List String,
      (l.filterMap (fileEntry outcome)).map Prod.fst =
        l.filter (fun p => fileHasFuncs outcome p) := by
  intro l
  induction l with
  | nil => rfl
  | cons p rest ih =>
    rw [List.filterMap_cons, List.filter_cons]
    cases ho : outcome p with
    | tree body =>
      by_cases hb : (fileFuncs body).isEmpty
      · simp [fileEntry, fileHasFuncs, ho, hb, ih]
      · simp [fileEntry, fileHasFuncs, ho, hb, ih]
    | openError msg => simp [fileEntry, fileHasFuncs, ho, ih]
    | readError msg => simp [fileEntry, fileHasFuncs, ho, ih]
    | parseError msg => simp [fileEntry, fileHasFuncs, ho, ih]

lemma dictSet_not_mem (m : List (String × FileResult)) (k : String) (v : FileResult)
    (h : k ∉ m.map Prod.fst) : dictSet m k v = m ++ [(k, v)] := by
  induction m with
  | nil => rfl
  | cons kv rest ih =>
    have hk : kv.1 ≠ k := by
      intro he
      exact h (by simp [he])
    have hrest : k ∉ rest.map Prod.fst := by
      intro hm
      exact h (by simp [hm])
    cases kv with
    | mk k' v' =>
      simp only [dictSet, if_neg hk, List.cons_append]
      rw [ih hrest]

/-- Characterization of the inner file loop of `scan_project`: when no
eligible file fails at `open()`, the loop succeeds and appends exactly one
`project_data` entry per eligible file with at least one function, and one
diagnostic line per eligible file whose read or parse failed. -/
lemma scanFiles_spec (sb : String) (outcome : String → FileOutcome) (dirpath : String) :
    ∀ (fns : List String) (acc : List (String × FileResult) × List String),
      (∀ p ∈ eligibleIn sb dirpath fns, isOpenError (outcome p) = false) →
      (∀ p ∈ eligibleIn sb dirpath fns, p ∉ acc.1.map Prod.fst) →
      (eligibleIn sb dirpath fns).Nodup →
      scanFiles sb outcome dirpath fns acc =
        .ok (acc.1 ++ (eligibleIn sb dirpath fns).filterMap (fileEntry outcome),
             acc.2 ++ (eligibleIn sb dirpath fns).filterMap (fileDiag outcome)) := by
  intro fns
  induction fns with
  | nil => intro acc _ _ _; simp [scanFiles, eligibleIn]
  | cons fn rest ih =>
    intro acc hopen hkeys hnd
    by_cases he : eligibleFile fn sb = true
    · have hE : eligibleIn sb dirpath (fn :: rest) =
          joinPath dirpath fn :: eligibleIn sb dirpath rest := by
        simp [eligibleIn, he]
      rw [hE] at hopen hkeys hnd
      have hpmem : joinPath dirpath fn ∈ joinPath dirpath fn :: eligibleIn sb dirpath rest :=
        List.mem_cons_self _ _
      have hopen' : ∀ p ∈ eligibleIn sb dirpath rest, isOpenError (outcome p) = false :=
        fun p hp => hopen p (List.mem_cons_of_mem _ hp)
      have hnd' : (eligibleIn sb dirpath rest).Nodup := hnd.of_cons
      have hpnotrest : joinPath dirpath fn ∉ eligibleIn sb dirpath rest :=
        (List.nodup_cons.mp hnd).1
      cases ho : outcome (joinPath dirpath fn) with
      | openError msg =>
        have hc := hopen _ hpmem
        rw [ho] at hc
        simp [isOpenError] at hc
      | readError msg =>
        have hstep : scanFiles sb outcome dirpath (fn :: rest) acc =
            scanFiles sb outcome dirpath rest (acc.1, acc.2 ++ [errPrint (joinPath dirpath fn) msg]) := by
          simp [scanFiles, he, ho, process_file, List.isEmpty_nil]
        rw [hstep, ih (acc.1, acc.2 ++ [errPrint (joinPath dirpath fn) msg]) hopen'
          (fun p hp => hkeys p (List.mem_cons_of_mem _ hp)) hnd']
        rw [hE]
        rw [List.filterMap_cons, List.filterMap_cons]
        have hent : fileEntry outcome (joinPath dirpath fn) = none := by
          simp [fileEntry, ho]
        have hdiag : fileDiag outcome (joinPath dirpath fn) =
            some (errPrint (joinPath dirpath fn) msg) := by
          simp [fileDiag, ho]
        rw [hent, hdiag]
        simp
      | parseError msg =>
        have hstep : scanFiles sb outcome dirpath (fn :: rest) acc =
            scanFiles sb outcome dirpath rest (acc.1, acc.2 ++ [errPrint (joinPath dirpath fn) msg]) := by
          simp [scanFiles, he, ho, process_file, List.isEmpty_nil]
        rw [hstep, ih (acc.1, acc.2 ++ [errPrint (joinPath dirpath fn) msg]) hopen'
          (fun p hp => hkeys p (List.mem_cons_of_mem _ hp)) hnd']
        rw [hE]
        rw [List.filterMap_cons, List.filterMap_cons]
        have hent : fileEntry outcome (joinPath dirpath fn) = none := by
          simp [fileEntry, ho]
        have hdiag : fileDiag outcome (joinPath dirpath fn) =
            some (errPrint (joinPath dirpath fn) msg) := by
          simp [fileDiag, ho]
        rw [hent, hdiag]
        simp
      | tree body =>
        by_cases hb : fileFuncs body = []
        · have hstep : scanFiles sb outcome dirpath (fn :: rest) acc =
              scanFiles sb outcome dirpath rest (acc.1, acc.2) := by
            simp only [scanFiles, he, if_true, ho, process_file_tree, if_pos hb]
            simp
          rw [hstep, ih (acc.1, acc.2) hopen'
            (fun p hp => hkeys p (List.mem_cons_of_mem _ hp)) hnd']
          rw [hE]
          rw [List.filterMap_cons, List.filterMap_cons]
          have hent : fileEntry outcome (joinPath dirpath fn) = none := by
            simp [fileEntry, ho, hb]
          have hdiag : fileDiag outcome (joinPath dirpath fn) = none := by
            simp [fileDiag, ho]
          rw [hent, hdiag]
        · have hdict : dictSet acc.1 (joinPath dirpath fn)
              ⟨[(module_name (joinPath dirpath fn), fileFuncs body)]⟩ =
              acc.1 ++ [(joinPath dirpath fn,
                ⟨[(module_name (joinPath dirpath fn), fileFuncs body)]⟩)] :=
            dictSet_not_mem _ _ _ (hkeys _ hpmem)
          have hstep : scanFiles sb outcome dirpath (fn :: rest) acc =
              scanFiles sb outcome dirpath rest
                (acc.1 ++ [(joinPath dirpath fn,
                  ⟨[(module_name (joinPath dirpath fn), fileFuncs body)]⟩)], acc.2) := by
            simp only [scanFiles, he, if_true, ho, process_file_tree, if_neg hb]
            simp only [List.isEmpty_cons, Bool.false_eq_true, if_false, hdict]
            simp
          rw [hstep, ih (acc.1 ++ [(joinPath dirpath fn,
              FileResult.mk [(module_name (joinPath dirpath fn), fileFuncs body)])], acc.2)
              hopen' ?keys hnd']
          case keys =>
            intro p hp
            rw [List.map_append]
            intro hmem
            rcases List.mem_append.mp hmem with h1 | h1
            · exact hkeys p (List.mem_cons_of_mem _ hp) h1
            · simp at h1
              exact hpnotrest (h1 ▸ hp)
          rw [hE]
          rw [List.filterMap_cons, List.filterMap_cons]
          have hent : fileEntry outcome (joinPath dirpath fn) =
              some (joinPath dirpath fn,
                ⟨[(module_name (joinPath dirpath fn), fileFuncs body)]⟩) := by
            simp [fileEntry, ho, hb]
          have hdiag : fileDiag outcome (joinPath dirpath fn) = none := by
            simp [fileDiag, ho]
          rw [hent, hdiag]
          simp
    · have hE : eligibleIn sb dirpath (fn :: rest) = eligibleIn sb dirpath rest := by
        simp [eligibleIn, he]
      rw [hE] at hopen hkeys hnd
      have hstep : scanFiles sb outcome dirpath (fn :: rest) acc =
          scanFiles sb outcome dirpath rest acc := by
        simp [scanFiles, he]
      rw [hstep, ih _ hopen hkeys hnd, hE]

/-- Characterization of `scan_project`'s outer loop. -/
lemma scanDirs_spec (sb : String) (outcome : String → FileOutcome) :
    ∀ (walkRes : List (String × List String)) (acc : List (String × FileResult) × List String),
      (∀ p ∈ eligiblePaths walkRes sb, isOpenError (outcome p) = false) →
      (∀ p ∈ eligiblePaths walkRes sb, p ∉ acc.1.map Prod.fst) →
      (eligiblePaths walkRes sb).Nodup →
      scanDirs sb outcome walkRes acc =
        .ok (acc.1 ++ (eligiblePaths walkRes sb).filterMap (fileEntry outcome),
             acc.2 ++ (eligiblePaths walkRes sb).filterMap (fileDiag outcome)) := by
  intro walkRes
  induction walkRes with
  | nil => intro acc _ _ _; simp [scanDirs, eligiblePaths]
  | cons dfns rest ih =>
    intro acc hopen hkeys hnd
    obtain ⟨d, fns⟩ := dfns
    have hEP : eligiblePaths ((d, fns) :: rest) sb =
        eligibleIn sb d fns ++ eligiblePaths rest sb := rfl
    rw [hEP] at hopen hkeys hnd
    rw [List.nodup_append] at hnd
    obtain ⟨hnd1, hnd2, hdisj⟩ := hnd
    have hstep := scanFiles_spec sb outcome d fns acc
      (fun p hp => hopen p (List.mem_append_left _ hp))
      (fun p hp => hkeys p (List.mem_append_left _ hp)) hnd1
    have hdo : scanDirs sb outcome ((d, fns) :: rest) acc =
        scanDirs sb outcome rest
          (acc.1 ++ (eligibleIn sb d fns).filterMap (fileEntry outcome),
           acc.2 ++ (eligibleIn sb d fns).filterMap (fileDiag outcome)) := by
      simp [scanDirs, hstep]
    rw [hdo, ih (acc.1 ++ (eligibleIn sb d fns).filterMap (fileEntry outcome),
          acc.2 ++ (eligibleIn sb d fns).filterMap (fileDiag outcome))
        (fun p hp => hopen p (List.mem_append_right _ hp)) ?keys hnd2]
    case keys =>
      intro p hp
      rw [List.map_append]
      intro hmem
      rcases List.mem_append.mp hmem with h1 | h1
      · exact hkeys p (List.mem_append_right _ hp) h1
      · rw [fileEntry_map_fst] at h1
        have hpelig : p ∈ eligibleIn sb d fns := List.mem_of_mem_filter h1
        exact hdisj hpelig hp
    rw [hEP, List.filterMap_append, List.filterMap_append]
    simp [List.append_assoc]

/-- Characterization of `scan_project`: when no eligible file fails at
`open()` and the eligible paths are distinct (true of any real directory
tree), the scan succeeds and `project_data` holds exactly one entry per
eligible file with at least one extracted function, while the printed
diagnostics are exactly one line per eligible file whose read/parse failed. -/
lemma scan_project_spec (walkRes : List (String × List String)) (sb : String)
    (outcome : String → FileOutcome)
    (hopen : ∀ p ∈ eligiblePaths walkRes sb, isOpenError (outcome p) = false)
    (hnd : (eligiblePaths walkRes sb).Nodup) :
    scan_project walkRes sb outcome =
      .ok ((eligiblePaths walkRes sb).filterMap (fileEntry outcome),
           (eligiblePaths walkRes sb).filterMap (fileDiag outcome)) := by
  unfold scan_project
  rw [scanDirs_spec sb outcome walkRes ([], []) hopen (by simp) hnd]
  simp

/- -------------------- lemmas: generate_report (text mode) -------------------- -/

lemma renderFuncs_txt :
    ∀ (fs : List FuncDetails) (ls : List String),
      renderFuncs "txt" fs (.lines ls) =
        .ok (.lines (ls ++ (fs.map specFuncLines).flatten)) := by
  intro fs
  induction fs with
  | nil => intro ls; simp [renderFuncs]
  | cons f rest ih =>
    intro ls
    have hstep : addRS "txt" (funcDocItems f) (funcTxtLines f) (.lines ls) =
        .ok (.lines (ls ++ funcTxtLines f)) := by
      simp [addRS]
    simp only [renderFuncs, hstep]
    rw [ih]
    simp [funcTxtLines, specFuncLines, List.append_assoc]

lemma renderModules_txt :
    ∀ (ms : List (String × List FuncDetails)) (ls : List String),
      renderModules "txt" ms (.lines ls) =
        .ok (.lines (ls ++ (ms.map specModuleLines).flatten)) := by
  intro ms
  induction ms with
  | nil => intro ls; simp [renderModules]
  | cons mf rest ih =>
    intro ls
    obtain ⟨module, functions⟩ := mf
    have hstep : addRS "txt" [.heading ("Module: " ++ module) 2]
        ["\nModule: " ++ module ++ "\n" ++ equalsRow] (.lines ls) =
        .ok (.lines (ls ++ ["\nModule: " ++ module ++ "\n" ++ equalsRow])) := by
      simp [addRS]
    simp only [renderModules, hstep, renderFuncs_txt, ih]
    simp [specModuleLines, List.append_assoc]

lemma renderFiles_txt :
    ∀ (data : List (String × FileResult)) (ls : List String),
      renderFiles "txt" data (.lines ls) =
        .ok (.lines (ls ++ (data.map specFileLines).flatten)) := by
  intro data
  induction data with
  | nil => intro ls; simp [renderFiles]
  | cons pf rest ih =>
    intro ls
    obtain ⟨file_path, fr⟩ := pf
    have hstep : addRS "txt" [.heading ("File: " ++ file_path) 1]
        ["\nFile: " ++ file_path ++ "\n" ++ dashRow] (.lines ls) =
        .ok (.lines (ls ++ ["\nFile: " ++ file_path ++ "\n" ++ dashRow])) := by
      simp [addRS]
    simp only [renderFiles, hstep, renderModules_txt, ih]
    simp [specFileLines, List.append_assoc]

/-- In text mode the renderer never raises and produces exactly the
File → Module → Function rendering of its input, regardless of whether the
docx library is available. -/
lemma generate_report_txt (data : List (String × FileResult)) (d : Bool) :
    generate_report data d "txt" =
      .ok (.txt (String.intercalate "\n" (specTextLines data)),
           ["Text document generated: project_documentation.txt"]) := by
  unfold generate_report
  have hfmt : (("txt" : String) == "docx") = false := by rfl
  simp only [hfmt, Bool.false_and, Bool.false_eq_true, if_false]
  rw [renderFiles_txt]
  simp [specTextLines]

/- -------------------- lemmas: eligible path membership -------------------- -/

lemma mem_eligibleIn (sb d : String) :
    ∀ (fns : List String) (p : String),
      p ∈ eligibleIn sb d fns ↔
        ∃ fn ∈ fns, eligibleFile fn sb = true ∧ p = joinPath d fn := by
  intro fns
  induction fns with
  | nil => intro p; simp [eligibleIn]
  | cons fn rest ih =>
    intro p
    by_cases he : eligibleFile fn sb = true
    · simp only [eligibleIn, if_pos he, List.mem_cons, ih]
      constructor
      · rintro (rfl | ⟨fn', hfn', hel, rfl⟩)
        · exact ⟨fn, Or.inl rfl, he, rfl⟩
        · exact ⟨fn', Or.inr hfn', hel, rfl⟩
      · rintro ⟨fn', rfl | hfn', hel, rfl⟩
        · exact Or.inl rfl
        · exact Or.inr ⟨fn', hfn', hel, rfl⟩
    · simp only [eligibleIn, if_neg he, ih, List.mem_cons]
      constructor
      · rintro ⟨fn', hfn', hel, rfl⟩
        exact ⟨fn', Or.inr hfn', hel, rfl⟩
      · rintro ⟨fn', rfl | hfn', hel, rfl⟩
        · exact absurd hel he
        · exact ⟨fn', hfn', hel, rfl⟩

lemma mem_eligiblePaths (sb : String) :
    ∀ (walkRes : List (String × List String)) (p : String),
      p ∈ eligiblePaths walkRes sb ↔
        ∃ dfns ∈ walkRes, ∃ fn ∈ dfns.2,
          eligibleFile fn sb = true ∧ p = joinPath dfns.1 fn := by
  intro walkRes
  induction walkRes with
  | nil => intro p; simp [eligiblePaths]
  | cons dfns rest ih =>
    intro p
    obtain ⟨d, fns⟩ := dfns
    show p ∈ eligibleIn sb d fns ++ eligiblePaths rest sb ↔ _
    rw [List.mem_append, mem_eligibleIn, ih]
    constructor
    · rintro (⟨fn, hfn, hel, rfl⟩ | ⟨dfns', hd', hrest⟩)
      · exact ⟨(d, fns), List.mem_cons_self _ _, fn, hfn, hel, rfl⟩
      · exact ⟨dfns', List.mem_cons_of_mem _ hd', hrest⟩
    · rintro ⟨dfns', hd', fn, hfn, hel, rfl⟩
      rcases List.mem_cons.mp hd' with rfl | hd'
      · exact Or.inl ⟨fn, hfn, hel, rfl⟩
      · exact Or.inr ⟨dfns', hd', fn, hfn, hel, rfl⟩

/- -------------------- the claims -------------------- -/

/-- Claim C1: a file whose text fails to parse never aborts: `process_file`
catches the error, prints a diagnostic containing the file path and the
error message, and returns a result with zero function records; the file
contributes no `ProjectData` entry, and the scan succeeds and keeps exactly
the other files' records. -/
theorem claim_c1_parse_error_skips_file
    (walkRes : List (String × List String)) (sb : String)
    (outcome : String → FileOutcome) (p0 msg : String)
    (hnd : (eligiblePaths walkRes sb).Nodup)
    (hopen : ∀ p ∈ eligiblePaths walkRes sb, isOpenError (outcome p) = false)
    (hp0 : p0 ∈ eligiblePaths walkRes sb)
    (ho : outcome p0 = .parseError msg) :
    process_file p0 (outcome p0) = .ok (⟨[]⟩, [errPrint p0 msg]) ∧
    ∃ pd prints, scan_project walkRes sb outcome = .ok (pd, prints) ∧
      p0 ∉ pd.map Prod.fst ∧
      errPrint p0 msg ∈ prints ∧
      pd.map Prod.fst =
        (eligiblePaths walkRes sb).filter (fun p => fileHasFuncs outcome p) := by
  constructor
  · rw [ho]; rfl
  · refine ⟨_, _, scan_project_spec walkRes sb outcome hopen hnd, ?_, ?_,
      fileEntry_map_fst outcome _⟩
    · rw [fileEntry_map_fst]
      intro hmem
      have hf := List.of_mem_filter hmem
      rw [fileHasFuncs, ho] at hf
      exact Bool.false_ne_true hf
    · exact List.mem_filterMap.mpr ⟨p0, hp0, by rw [fileDiag, ho]⟩

/-- Witness for C1 at a concrete directory tree: `bad.py` fails to parse,
`a.py` contains one function, `main.py` and `notes.txt` are not eligible. -/
theorem claim_c1_parse_error_skips_file_w :
    process_file "r/bad.py"
        ((fun p => if p = "r/bad.py" then FileOutcome.parseError "invalid syntax"
                   else FileOutcome.tree [Node.funcDef "foo" [] none none []]) "r/bad.py") =
      .ok (⟨[]⟩, [errPrint "r/bad.py" "invalid syntax"]) ∧
    ∃ pd prints,
      scan_project [("r", ["a.py", "bad.py", "main.py", "notes.txt"])] "main.py"
          (fun p => if p = "r/bad.py" then FileOutcome.parseError "invalid syntax"
                    else FileOutcome.tree [Node.funcDef "foo" [] none none []]) =
        .ok (pd, prints) ∧
      "r/bad.py" ∉ pd.map Prod.fst ∧
      errPrint "r/bad.py" "invalid syntax" ∈ prints ∧
      pd.map Prod.fst =
        (eligiblePaths [("r", ["a.py", "bad.py", "main.py", "notes.txt"])] "main.py").filter
          (fun p => fileHasFuncs
            (fun p => if p = "r/bad.py" then FileOutcome.parseError "invalid syntax"
                      else FileOutcome.tree [Node.funcDef "foo" [] none none []]) p) :=
  claim_c1_parse_error_skips_file [("r", ["a.py", "bad.py", "main.py", "notes.txt"])]
    "main.py"
    (fun p => if p = "r/bad.py" then FileOutcome.parseError "invalid syntax"
              else FileOutcome.tree [Node.funcDef "foo" [] none none []])
    "r/bad.py" "invalid syntax" (by decide) (by decide) (by decide) rfl

/-- Claim C2 (code bug): with the docx library absent, the source intends to
fall back to text mode (`if output_format == 'docx' and Document:`), but the
loop body checks only `output_format == 'docx'` and dereferences the unbound
variable `doc`, so calling the renderer with mode `docx` and any nonempty
`ProjectData` raises a `NameError` instead of falling back; the fallback
works only for empty data. -/
theorem claim_c2_docx_without_library
    : generate_report [("a.py", ⟨[("a", [⟨"foo", [], none, ""⟩])]⟩)] false "docx" =
        .error "NameError: name doc is not defined" ∧
      generate_report [] false "docx" =
        .ok (.txt "", ["Text document generated: project_documentation.txt"]) :=
  ⟨rfl, rfl⟩

/-- Claim C3: `ProjectData` has exactly one entry per eligible file with at
least one extracted function, and no entry holds an empty module mapping or
an empty function list. -/
theorem claim_c3_no_empty_entries
    (walkRes : List (String × List String)) (sb : String)
    (outcome : String → FileOutcome)
    (hnd : (eligiblePaths walkRes sb).Nodup)
    (hopen : ∀ p ∈ eligiblePaths walkRes sb, isOpenError (outcome p) = false) :
    ∃ pd prints, scan_project walkRes sb outcome = .ok (pd, prints) ∧
      pd.length =
        ((eligiblePaths walkRes sb).filter (fun p => fileHasFuncs outcome p)).length ∧
      ∀ e ∈ pd, e.2.modules ≠ [] ∧ ∀ mf ∈ e.2.modules, mf.2 ≠ [] := by
  refine ⟨_, _, scan_project_spec walkRes sb outcome hopen hnd, ?_, ?_⟩
  · have h := congrArg List.length (fileEntry_map_fst outcome (eligiblePaths walkRes sb))
    simpa using h
  · intro e he
    obtain ⟨p, hp, hfe⟩ := List.mem_filterMap.mp he
    cases ho : outcome p with
    | tree body =>
      simp only [fileEntry, ho] at hfe
      by_cases hb : (fileFuncs body).isEmpty
      · rw [if_pos hb] at hfe
        exact absurd hfe (by simp)
      · rw [if_neg hb] at hfe
        have hne : fileFuncs body ≠ [] := by
          intro hnil
          rw [hnil] at hb
          exact hb rfl
        injection hfe with hfe
        subst hfe
        refine ⟨by simp, ?_⟩
        intro mf hmf
        rcases List.mem_singleton.mp hmf with rfl
        exact hne
    | openError msg => simp [fileEntry, ho] at hfe
    | readError msg => simp [fileEntry, ho] at hfe
    | parseError msg => simp [fileEntry, ho] at hfe

/-- Witness for C3 at a concrete directory tree with two eligible files, one
of which has a function. -/
theorem claim_c3_no_empty_entries_w :
    ∃ pd prints,
      scan_project [("r", ["a.py", "empty.py", "main.py"])] "main.py"
          (fun p => if p = "r/a.py"
                    then FileOutcome.tree [Node.funcDef "foo" [] none none []]
                    else FileOutcome.tree []) =
        .ok (pd, prints) ∧
      pd.length =
        ((eligiblePaths [("r", ["a.py", "empty.py", "main.py"])] "main.py").filter
          (fun p => fileHasFuncs
            (fun p => if p = "r/a.py"
                      then FileOutcome.tree [Node.funcDef "foo" [] none none []]
                      else FileOutcome.tree []) p)).length ∧
      ∀ e ∈ pd, e.2.modules ≠ [] ∧ ∀ mf ∈ e.2.modules, mf.2 ≠ [] :=
  claim_c3_no_empty_entries [("r", ["a.py", "empty.py", "main.py"])] "main.py"
    (fun p => if p = "r/a.py"
              then FileOutcome.tree [Node.funcDef "foo" [] none none []]
              else FileOutcome.tree [])
    (by decide) (by decide)

/-- Claim C4: `analyze_function` on a definition with parameters
`(a: int, b)` and return annotation `str` yields
`args = [{name: a, type: int}, {name: b}]` and `returns = str`; in general
`returns` is `none` exactly when the annotation is absent, a missing
docstring becomes the empty string, and the `type` key is present exactly
when the parameter is annotated. -/
theorem claim_c4_analyze_function :
    (∀ (nm : String) (doc : Option String),
      (analyze_function nm [⟨"a", some "int"⟩, ⟨"b", none⟩] (some "str") doc).args =
        [⟨"a", some "int"⟩, ⟨"b", none⟩] ∧
      (analyze_function nm [⟨"a", some "int"⟩, ⟨"b", none⟩] (some "str") doc).returns =
        some "str") ∧
    (∀ (nm : String) (args : List PyArg) (doc : Option String),
      (analyze_function nm args none doc).returns = none) ∧
    (∀ (nm : String) (args : List PyArg) (ret : Option String),
      (analyze_function nm args ret none).docstring = "") ∧
    (∀ (nm : String) (args : List PyArg) (ret doc : Option String),
      (analyze_function nm args ret doc).args = args.map (fun a => ⟨a.arg, a.ann⟩)) :=
  ⟨fun _ _ => ⟨rfl, rfl⟩, fun _ _ _ => rfl, fun _ _ _ => rfl, fun _ _ _ _ => rfl⟩

/-- Claim C5 counterexample: the module name is not always the base name
minus its trailing `".py"` suffix.  For the eligible file name
`foo.pyx.py`, `replace('.py', '')` also hits the `".py"` inside `".pyx"`,
giving `foox` instead of `foo.pyx`. -/
theorem claim_c5_counterexample :
    pyEndsWith "foo.pyx.py" ".py" = true ∧
    module_name "foo.pyx.py" = "foox" ∧
    module_name "foo.pyx.py" ≠ "foo.pyx" := by
  refine ⟨by decide, by decide, by decide⟩

/-- Claim C5 (amended): the module name is the file's base name with every
occurrence of `".py"` removed; when `".py"` occurs in the base name only as
the trailing suffix (as in `utils.py` → `utils`), this coincides with
stripping exactly that suffix. -/
theorem claim_c5_module_name_amended (d : String) (stem : List Char)
    (hocc : hasSegment ['.', 'p', 'y'] stem = false) (hs : '/' ∉ stem) :
    module_name (joinPath d (String.mk (stem ++ ['.', 'p', 'y']))) = String.mk stem :=
  module_name_strip d stem hocc hs

/-- Witness for the amended C5: `src/utils.py` yields module name `utils`. -/
theorem claim_c5_module_name_amended_w :
    module_name (joinPath "src" (String.mk (['u', 't', 'i', 'l', 's'] ++ ['.', 'p', 'y']))) =
      String.mk ['u', 't', 'i', 'l', 's'] :=
  claim_c5_module_name_amended "src" ['u', 't', 'i', 'l', 's'] (by decide) (by decide)

/-- Claim C6: for a file that parses, `process_file` produces exactly one
record per `FunctionDef` node found anywhere in the tree (at any nesting
depth; `allNodes` enumerates every node of the forest) and no record for a
non-function node, as a permutation because `ast.walk` visits in
breadth-first rather than depth-first order. -/
theorem claim_c6_one_record_per_funcdef (fp : String) (body : List Node) :
    ∃ res, process_file fp (.tree body) = .ok (res, []) ∧
      List.Perm ((res.modules.map Prod.snd).flatten)
        ((allNodes body).filterMap nodeRecord) := by
  refine ⟨_, process_file_tree fp body, ?_⟩
  by_cases hb : fileFuncs body = []
  · rw [if_pos hb]
    simp only [List.map_nil, List.flatten_nil]
    exact hb ▸ fileFuncs_perm body
  · rw [if_neg hb]
    simp only [List.map_cons, List.map_nil, List.flatten_cons, List.flatten_nil,
      List.append_nil]
    exact fileFuncs_perm body

/-- Claim C7: text-mode rendering is a deterministic function of
`ProjectData` (independent even of docx availability), and its output is
exactly the fixed File → Module → Function iteration in insertion order. -/
theorem claim_c7_text_mode_deterministic
    (data : List (String × FileResult)) (d1 d2 : Bool) :
    generate_report data d1 "txt" =
      .ok (.txt (String.intercalate "\n" (specTextLines data)),
           ["Text document generated: project_documentation.txt"]) ∧
    generate_report data d1 "txt" = generate_report data d2 "txt" :=
  ⟨generate_report_txt data d1,
   (generate_report_txt data d1).trans (generate_report_txt data d2).symm⟩

/-- Claim C8: the scan considers exactly the recursively discovered paths
whose file name ends with `".py"`, excluding the running script's own base
name; the resulting keys are exactly the eligible files with at least one
function, each exactly once. -/
theorem claim_c8_eligible_files
    (walkRes : List (String × List String)) (sb : String)
    (outcome : String → FileOutcome)
    (hnd : (eligiblePaths walkRes sb).Nodup)
    (hopen : ∀ p ∈ eligiblePaths walkRes sb, isOpenError (outcome p) = false) :
    ∃ pd prints, scan_project walkRes sb outcome = .ok (pd, prints) ∧
      pd.map Prod.fst =
        (eligiblePaths walkRes sb).filter (fun p => fileHasFuncs outcome p) ∧
      (pd.map Prod.fst).Nodup ∧
      (∀ p, p ∈ pd.map Prod.fst ↔
        p ∈ eligiblePaths walkRes sb ∧ fileHasFuncs outcome p = true) ∧
      (∀ p, p ∈ eligiblePaths walkRes sb ↔
        ∃ dfns ∈ walkRes, ∃ fn ∈ dfns.2,
          (pyEndsWith fn ".py" && fn != sb) = true ∧ p = joinPath dfns.1 fn) := by
  refine ⟨_, _, scan_project_spec walkRes sb outcome hopen hnd,
    fileEntry_map_fst outcome _, ?_, ?_, ?_⟩
  · rw [fileEntry_map_fst]
    exact hnd.filter _
  · intro p
    rw [fileEntry_map_fst, List.mem_filter]
  · intro p
    exact mem_eligiblePaths sb walkRes p

/-- Witness for C8 at a concrete two-directory tree. -/
theorem claim_c8_eligible_files_w :
    ∃ pd prints,
      scan_project [("r", ["a.py", "main.py"]), ("r/sub", ["b.py", "c.txt"])] "main.py"
          (fun p => if p = "r/a.py"
                    then FileOutcome.tree [Node.funcDef "foo" [] none none []]
                    else FileOutcome.tree []) =
        .ok (pd, prints) ∧
      pd.map Prod.fst =
        (eligiblePaths [("r", ["a.py", "main.py"]), ("r/sub", ["b.py", "c.txt"])] "main.py").filter
          (fun p => fileHasFuncs
            (fun p => if p = "r/a.py"
                      then FileOutcome.tree [Node.funcDef "foo" [] none none []]
                      else FileOutcome.tree []) p) ∧
      (pd.map Prod.fst).Nodup ∧
      (∀ p, p ∈ pd.map Prod.fst ↔
        p ∈ eligiblePaths [("r", ["a.py", "main.py"]), ("r/sub", ["b.py", "c.txt"])] "main.py" ∧
          fileHasFuncs
            (fun p => if p = "r/a.py"
                      then FileOutcome.tree [Node.funcDef "foo" [] none none []]
                      else FileOutcome.tree []) p = true) ∧
      (∀ p, p ∈ eligiblePaths [("r", ["a.py", "main.py"]), ("r/sub", ["b.py", "c.txt"])] "main.py" ↔
        ∃ dfns ∈ [("r", ["a.py", "main.py"]), ("r/sub", ["b.py", "c.txt"])], ∃ fn ∈ dfns.2,
          (pyEndsWith fn ".py" && fn != "main.py") = true ∧ p = joinPath dfns.1 fn) :=
  claim_c8_eligible_files [("r", ["a.py", "main.py"]), ("r/sub", ["b.py", "c.txt"])]
    "main.py"
    (fun p => if p = "r/a.py"
              then FileOutcome.tree [Node.funcDef "foo" [] none none []]
              else FileOutcome.tree [])
    (by decide) (by decide)

/-- Claim C9 counterexample: a discovered file that cannot be opened
(`open()` raises, e.g. for an unreadable file) is not skip-and-continue:
`open` sits outside the `try` block of `process_file`, so the exception
propagates and the whole scan aborts, losing the other files' records. -/
theorem claim_c9_counterexample :
    scan_project [("r", ["bad.py", "ok.py"])] "main.py"
        (fun p => if p = "r/bad.py" then FileOutcome.openError "Permission denied"
                  else FileOutcome.tree [Node.funcDef "f" [] none none []]) =
      .error "Permission denied" := rfl

/-- Claim C9 (amended): an I/O error raised while reading the already-opened
file (`f.read()`, inside the `try` block) is treated with the same
skip-and-continue policy as a parse error — reported, zero records, scan
continues — but a failure to open the file propagates and aborts the scan
(see the counterexample). -/
theorem claim_c9_read_error_amended
    (walkRes : List (String × List String)) (sb : String)
    (outcome : String → FileOutcome) (p0 msg : String)
    (hnd : (eligiblePaths walkRes sb).Nodup)
    (hopen : ∀ p ∈ eligiblePaths walkRes sb, isOpenError (outcome p) = false)
    (hp0 : p0 ∈ eligiblePaths walkRes sb)
    (ho : outcome p0 = .readError msg) :
    process_file p0 (outcome p0) = .ok (⟨[]⟩, [errPrint p0 msg]) ∧
    ∃ pd prints, scan_project walkRes sb outcome = .ok (pd, prints) ∧
      p0 ∉ pd.map Prod.fst ∧
      errPrint p0 msg ∈ prints ∧
      pd.map Prod.fst =
        (eligiblePaths walkRes sb).filter (fun p => fileHasFuncs outcome p) := by
  constructor
  · rw [ho]; rfl
  · refine ⟨_, _, scan_project_spec walkRes sb outcome hopen hnd, ?_, ?_,
      fileEntry_map_fst outcome _⟩
    · rw [fileEntry_map_fst]
      intro hmem
      have hf := List.of_mem_filter hmem
      rw [fileHasFuncs, ho] at hf
      exact Bool.false_ne_true hf
    · exact List.mem_filterMap.mpr ⟨p0, hp0, by rw [fileDiag, ho]⟩

/-- Witness for the amended C9: the read of `bad.py` fails mid-scan but the
scan completes with the other file's records intact. -/
theorem claim_c9_read_error_amended_w :
    process_file "r/bad.py"
        ((fun p => if p = "r/bad.py" then FileOutcome.readError "Input output error"
                   else FileOutcome.tree [Node.funcDef "foo" [] none none []]) "r/bad.py") =
      .ok (⟨[]⟩, [errPrint "r/bad.py" "Input output error"]) ∧
    ∃ pd prints,
      scan_project [("r", ["a.py", "bad.py", "main.py"])] "main.py"
          (fun p => if p = "r/bad.py" then FileOutcome.readError "Input output error"
                    else FileOutcome.tree [Node.funcDef "foo" [] none none []]) =
        .ok (pd, prints) ∧
      "r/bad.py" ∉ pd.map Prod.fst ∧
      errPrint "r/bad.py" "Input output error" ∈ prints ∧
      pd.map Prod.fst =
        (eligiblePaths [("r", ["a.py", "bad.py", "main.py"])] "main.py").filter
          (fun p => fileHasFuncs
            (fun p => if p = "r/bad.py" then FileOutcome.readError "Input output error"
                      else FileOutcome.tree [Node.funcDef "foo" [] none none []]) p) :=
  claim_c9_read_error_amended [("r", ["a.py", "bad.py", "main.py"])] "main.py"
    (fun p => if p = "r/bad.py" then FileOutcome.readError "Input output error"
              else FileOutcome.tree [Node.funcDef "foo" [] none none []])
    "r/bad.py" "Input output error" (by decide) (by decide) (by decide) rfl

/-- Claim C10: every `FileRecord` is a structure with the single field
`modules`, whose mapping holds at most one module name — the one derived
from the file's base name — and every `ProjectData` entry groups all of the
file's records under exactly that one module. -/
theorem claim_c10_single_module :
    (∀ (fp : String) (oc : FileOutcome) (res : FileResult) (prints : List String),
      process_file fp oc = .ok (res, prints) →
      res.modules = [] ∨ ∃ fds, fds ≠ [] ∧ res.modules = [(module_name fp, fds)]) ∧
    (∀ (walkRes : List (String × List String)) (sb : String)
      (outcome : String → FileOutcome) (pd : List (String × FileResult))
      (prints : List String),
      (eligiblePaths walkRes sb).Nodup →
      (∀ p ∈ eligiblePaths walkRes sb, isOpenError (outcome p) = false) →
      scan_project walkRes sb outcome = .ok (pd, prints) →
      ∀ e ∈ pd, ∃ fds, fds ≠ [] ∧ e.2.modules = [(module_name e.1, fds)]) := by
  constructor
  · intro fp oc res prints hok
    cases oc with
    | openError msg => exact absurd hok (by simp [process_file])
    | readError msg =>
      have hok' : Except.ok (ε := String) ((⟨[]⟩ : FileResult), [errPrint fp msg]) = .ok (res, prints) := hok
      injection hok' with h3
      exact Or.inl (congrArg FileResult.modules (congrArg Prod.fst h3).symm)
    | parseError msg =>
      have hok' : Except.ok (ε := String) ((⟨[]⟩ : FileResult), [errPrint fp msg]) = .ok (res, prints) := hok
      injection hok' with h3
      exact Or.inl (congrArg FileResult.modules (congrArg Prod.fst h3).symm)
    | tree body =>
      rw [process_file_tree] at hok
      injection hok with h3
      have hres := (congrArg Prod.fst h3).symm
      by_cases hb : fileFuncs body = []
      · rw [if_pos hb] at hres
        exact Or.inl (congrArg FileResult.modules hres)
      · rw [if_neg hb] at hres
        exact Or.inr ⟨fileFuncs body, hb, congrArg FileResult.modules hres⟩
  · intro walkRes sb outcome pd prints hnd hopen hok e he
    rw [scan_project_spec walkRes sb outcome hopen hnd] at hok
    injection hok with h3
    have hpd : pd = (eligiblePaths walkRes sb).filterMap (fileEntry outcome) :=
      (congrArg Prod.fst h3).symm
    rw [hpd] at he
    obtain ⟨p, hp, hfe⟩ := List.mem_filterMap.mp he
    cases ho : outcome p with
    | tree body =>
      simp only [fileEntry, ho] at hfe
      by_cases hb : (fileFuncs body).isEmpty
      · rw [if_pos hb] at hfe
        exact absurd hfe (by simp)
      · rw [if_neg hb] at hfe
        have hne : fileFuncs body ≠ [] := by
          intro hnil
          rw [hnil] at hb
          exact hb rfl
        injection hfe with hfe
        subst hfe
        exact ⟨fileFuncs body, hne, rfl⟩
    | openError msg => simp [fileEntry, ho] at hfe
    | readError msg => simp [fileEntry, ho] at hfe
    | parseError msg => simp [fileEntry, ho] at hfe

/-- Witness for C10: a concrete `process_file` call on a file that fails to
parse yields the empty module mapping. -/
theorem claim_c10_single_module_w :
    (FileResult.mk []).modules = [] ∨
    ∃ fds, fds ≠ [] ∧ (FileResult.mk []).modules = [(module_name "r/a.py", fds)] :=
  claim_c10_single_module.1 "r/a.py" (.readError "boom") ⟨[]⟩
    [errPrint "r/a.py" "boom"] rfl

end CodeReport
